import Mathlib

/-!
Shallow embedding of the webgpu-util arcball camera (`src/unnamed/part_000`,
class `ArcballCamera`) and touch-gesture controller (`src/controller.js`,
class `Controller`) over exact real arithmetic.

The repository imports its linear-algebra primitives (`vec2`, `vec3`, `vec4`,
`mat3`, `mat4`, `quat`) from a vendored wgpu-matrix module that is not part of
the given source tree, so those primitives are modelled from the
specification's description of them (standard value-semantics vectors,
quaternions and column-major 4x4 matrices; `mat4.invert` computes the matrix
inverse, `normalize` divides a vector by its length). Everything in the two
source files themselves is translated directly.
-/

namespace WebgpuUtil

noncomputable section

abbrev Vec2 := ℝ × ℝ

abbrev Vec3 := ℝ × ℝ × ℝ

abbrev Vec4 := Fin 4 → ℝ

abbrev Mat4 := Matrix (Fin 4) (Fin 4) ℝ

abbrev Mat3 := Matrix (Fin 3) (Fin 3) ℝ

/-- Quaternion with components in wgpu-matrix order `(x, y, z, w)`. -/
structure Quat where
  x : ℝ
  y : ℝ
  z : ℝ
  w : ℝ

/-- Modelled from the spec: `vec2.dot`. -/
def vec2dot (a b : Vec2) : ℝ := a.1 * b.1 + a.2 * b.2

/-- Modelled from the spec: `vec2.len`, the Euclidean length. -/
def vec2len (a : Vec2) : ℝ := Real.sqrt (a.1 * a.1 + a.2 * a.2)

/-- Modelled from the spec: `vec2.normalize` divides a vector by its
Euclidean length (normalizing a degenerate zero vector yields the zero
vector, matching real division by zero in this model). -/
def vec2normalize (a : Vec2) : Vec2 := (a.1 / vec2len a, a.2 / vec2len a)

/-- Modelled from the spec: `vec2.lerp a b t = a + (b - a) * t`. -/
def vec2lerp (a b : Vec2) (t : ℝ) : Vec2 :=
  (a.1 + (b.1 - a.1) * t, a.2 + (b.2 - a.2) * t)

/-- Modelled from the spec: `vec3.sub`. -/
def vec3sub (a b : Vec3) : Vec3 := (a.1 - b.1, a.2.1 - b.2.1, a.2.2 - b.2.2)

/-- Modelled from the spec: `vec3.len`, the Euclidean length. -/
def vec3len (a : Vec3) : ℝ :=
  Real.sqrt (a.1 * a.1 + a.2.1 * a.2.1 + a.2.2 * a.2.2)

/-- Modelled from the spec: `vec3.normalize`. -/
def vec3normalize (a : Vec3) : Vec3 :=
  (a.1 / vec3len a, a.2.1 / vec3len a, a.2.2 / vec3len a)

/-- Modelled from the spec: `vec3.cross`, the right-handed cross product. -/
def vec3cross (a b : Vec3) : Vec3 :=
  (a.2.1 * b.2.2 - a.2.2 * b.2.1,
   a.2.2 * b.1 - a.1 * b.2.2,
   a.1 * b.2.1 - a.2.1 * b.1)

/-- Modelled from the spec: `quat.mul`, the Hamilton product (components in
`(x, y, z, w)` order). -/
def quatMul (a b : Quat) : Quat :=
  ⟨a.x * b.w + a.w * b.x + a.y * b.z - a.z * b.y,
   a.y * b.w + a.w * b.y + a.z * b.x - a.x * b.z,
   a.z * b.w + a.w * b.z + a.x * b.y - a.y * b.x,
   a.w * b.w - a.x * b.x - a.y * b.y - a.z * b.z⟩

/-- Squared Euclidean norm of a quaternion. -/
def quatNormSq (q : Quat) : ℝ := q.x * q.x + q.y * q.y + q.z * q.z + q.w * q.w

/-- Euclidean norm of a quaternion. -/
def quatNorm (q : Quat) : ℝ := Real.sqrt (quatNormSq q)

/-- Modelled from the spec: `quat.normalize`. -/
def quatNormalize (q : Quat) : Quat :=
  ⟨q.x / quatNorm q, q.y / quatNorm q, q.z / quatNorm q, q.w / quatNorm q⟩

/-- Modelled from the spec: `mat4.translation v`, the column-major 4x4
translation matrix whose last column holds `v` (flat entries 12..14). -/
def translationM (v : Vec3) : Mat4 :=
  Matrix.of fun i j =>
    if j = 3 then
      (if i = 0 then v.1 else if i = 1 then v.2.1 else if i = 2 then v.2.2 else 1)
    else if i = j then 1 else 0

/-- Flat column-major entry 14 of a 4x4 matrix (row 2, column 3): the
Z component of a translation. -/
def e14 (m : Mat4) : ℝ := m 2 3

/-- Replace flat column-major entry 14 (row 2, column 3) of a matrix. -/
def setE14 (m : Mat4) (v : ℝ) : Mat4 :=
  Matrix.of fun i j => if i = 2 ∧ j = 3 then v else m i j

/-- Modelled from the spec: `mat4.fromQuat`, the standard rotation matrix of
a quaternion, with last row and last column `(0, 0, 0, 1)`. -/
def mat4FromQuat (q : Quat) : Mat4 :=
  Matrix.of fun i j =>
    if i = 0 then
      (if j = 0 then 1 - 2 * (q.y * q.y + q.z * q.z)
       else if j = 1 then 2 * (q.x * q.y - q.w * q.z)
       else if j = 2 then 2 * (q.x * q.z + q.w * q.y) else 0)
    else if i = 1 then
      (if j = 0 then 2 * (q.x * q.y + q.w * q.z)
       else if j = 1 then 1 - 2 * (q.x * q.x + q.z * q.z)
       else if j = 2 then 2 * (q.y * q.z - q.w * q.x) else 0)
    else if i = 2 then
      (if j = 0 then 2 * (q.x * q.z - q.w * q.y)
       else if j = 1 then 2 * (q.y * q.z + q.w * q.x)
       else if j = 2 then 1 - 2 * (q.x * q.x + q.y * q.y) else 0)
    else
      (if j = 3 then 1 else 0)

/-- Translated from `src/unnamed/part_000` (`clamp`):
`a < min ? min : a > max ? max : a`. -/
def clamp (a mn mx : ℝ) : ℝ := if a < mn then mn else if a > mx then mx else a

/-- Translated from `src/unnamed/part_000` (`screenToArcball`): points with
squared length at most one lift onto the unit hemisphere, others are
normalized onto the equator. -/
def screenToArcball (p : Vec2) : Quat :=
  let dist := vec2dot p p
  if dist ≤ 1 then
    ⟨p.1, p.2, Real.sqrt (1 - dist), 0⟩
  else
    let unitP := vec2normalize p
    ⟨unitP.1, unitP.2, 0, 0⟩

/-- State of an `ArcballCamera` instance (`src/unnamed/part_000`): the
fields assigned in the constructor. -/
@[ext]
structure ArcballState where
  rotation : Quat
  translation : Mat4
  centerTranslation : Mat4
  camera : Mat4
  invCamera : Mat4
  zoomSpeed : ℝ
  invScreen : Vec2

/-- Translated from `src/unnamed/part_000` (`ArcballCamera.updateCameraMatrix`):
`camera = translation * (fromQuat rotation * centerTranslation)` and
`invCamera = invert camera` (the inverse is modelled from the spec, which
states `invCamera = camera⁻¹`). -/
def updateCameraMatrix (s : ArcballState) : ArcballState :=
  let rotMat := mat4FromQuat s.rotation
  let cam := s.translation * (rotMat * s.centerTranslation)
  { s with camera := cam, invCamera := cam⁻¹ }

/-- Translated from `src/unnamed/part_000` (`ArcballCamera.rotate`), the
normalized-device-coordinate point the code computes for the previous mouse
position. Note the source reads `curMouse[0]` (not `prevMouse[0]`) for the
x coordinate. -/
def rotateMPrev (s : ArcballState) (prevMouse curMouse : Vec2) : Vec2 :=
  (clamp (curMouse.1 * 2 * s.invScreen.1 - 1) (-1) 1,
   clamp (1 - prevMouse.2 * 2 * s.invScreen.2) (-1) 1)

/-- Normalized-device-coordinate point `rotate` computes for the current
mouse position (`src/unnamed/part_000`, lines 59-61). -/
def rotateMCur (s : ArcballState) (curMouse : Vec2) : Vec2 :=
  (clamp (curMouse.1 * 2 * s.invScreen.1 - 1) (-1) 1,
   clamp (1 - curMouse.2 * 2 * s.invScreen.2) (-1) 1)

/-- The point the specification prescribes for the previous mouse position
in `rotate`: both coordinates taken from `prevMouse`
(`((prevMouse.x * 2 / width) - 1, 1 - (prevMouse.y * 2 / height))`, clamped).
This definition follows the spec's words, for comparison with `rotateMPrev`
above, which follows the source. -/
def rotateMPrevSpec (s : ArcballState) (prevMouse : Vec2) : Vec2 :=
  (clamp (prevMouse.1 * 2 * s.invScreen.1 - 1) (-1) 1,
   clamp (1 - prevMouse.2 * 2 * s.invScreen.2) (-1) 1)

/-- Translated from `src/unnamed/part_000` (`ArcballCamera.rotate`):
projects both normalized positions through `screenToArcball` and composes
`rotation <- curBall * (prevBall * rotation)`. -/
def rotate (s : ArcballState) (prevMouse curMouse : Vec2) : ArcballState :=
  let mPrev := rotateMPrev s prevMouse curMouse
  let mCur := rotateMCur s curMouse
  let mPrevBall := screenToArcball mPrev
  let mCurBall := screenToArcball mCur
  let r1 := quatMul mPrevBall s.rotation
  let r2 := quatMul mCurBall r1
  updateCameraMatrix { s with rotation := r2 }

/-- Translated from `src/unnamed/part_000` (`ArcballCamera.zoom`): composes a
Z translation by `amount * invScreen.y * zoomSpeed` into `translation`, then
clamps flat entry 14 to be at most `-0.2`. -/
def zoom (s : ArcballState) (amount : ℝ) : ArcballState :=
  let vt : Vec3 := (0, 0, amount * s.invScreen.2 * s.zoomSpeed)
  let t := translationM vt
  let tr := t * s.translation
  let tr := if e14 tr ≥ -0.2 then setE14 tr (-0.2) else tr
  updateCameraMatrix { s with translation := tr }

/-- Translated from `src/unnamed/part_000` (`ArcballCamera.pan`), first
half: the view-space displacement, the pixel delta scaled by `invScreen`
and the current zoom distance `|translation[14]|`. -/
def panDelta (s : ArcballState) (mouseDelta : Vec2) : Vec4 :=
  ![mouseDelta.1 * s.invScreen.1 * |e14 s.translation|,
    mouseDelta.2 * s.invScreen.2 * |e14 s.translation|, 0, 0]

/-- Translated from `src/unnamed/part_000` (`ArcballCamera.pan`): the
view-space displacement is transformed to world space through `invCamera`
(`vec4.transformMat4` is modelled from the spec as the matrix-vector
product) and composed into `centerTranslation`. -/
def pan (s : ArcballState) (mouseDelta : Vec2) : ArcballState :=
  let delta := panDelta s mouseDelta
  let worldDelta := s.invCamera.mulVec delta
  let t := translationM (worldDelta 0, worldDelta 1, worldDelta 2)
  updateCameraMatrix { s with centerTranslation := t * s.centerTranslation }

/-- Modelled from the spec: `mat3.create` with nine values filling the three
columns, as used by the constructor to assemble the basis matrix. -/
def mat3FromCols (c0 c1 c2 : Vec3) : Mat3 :=
  Matrix.of fun i j =>
    let c := if j = 0 then c0 else if j = 1 then c1 else c2
    if i = 0 then c.1 else if i = 1 then c.2.1 else c.2.2

/-- Modelled from the spec: `quat.fromMat` case of Shepperd's method with
largest diagonal entry at index `i`, `j = (i+1) % 3`, `k = (i+2) % 3`. -/
def quatFromMat3Case0 (m : Mat3) : Quat :=
  let root := Real.sqrt (m 0 0 - m 1 1 - m 2 2 + 1)
  let t := 0.5 / root
  ⟨0.5 * root, (m 0 1 + m 1 0) * t, (m 0 2 + m 2 0) * t, (m 2 1 - m 1 2) * t⟩

/-- Shepperd case with the largest diagonal entry at index 1. -/
def quatFromMat3Case1 (m : Mat3) : Quat :=
  let root := Real.sqrt (m 1 1 - m 2 2 - m 0 0 + 1)
  let t := 0.5 / root
  ⟨(m 1 0 + m 0 1) * t, 0.5 * root, (m 1 2 + m 2 1) * t, (m 0 2 - m 2 0) * t⟩

/-- Shepperd case with the largest diagonal entry at index 2. -/
def quatFromMat3Case2 (m : Mat3) : Quat :=
  let root := Real.sqrt (m 2 2 - m 0 0 - m 1 1 + 1)
  let t := 0.5 / root
  ⟨(m 2 0 + m 0 2) * t, (m 2 1 + m 1 2) * t, 0.5 * root, (m 1 0 - m 0 1) * t⟩

/-- Modelled from the spec: `quat.fromMat`, the quaternion equivalent to a
rotation-basis matrix (Shepperd's trace-based method). -/
def quatFromMat3 (m : Mat3) : Quat :=
  let trace := m 0 0 + m 1 1 + m 2 2
  if trace > 0 then
    let root := Real.sqrt (trace + 1)
    ⟨(m 2 1 - m 1 2) * (0.5 / root),
     (m 0 2 - m 2 0) * (0.5 / root),
     (m 1 0 - m 0 1) * (0.5 / root),
     0.5 * root⟩
  else if m 1 1 > m 0 0 then
    (if m 2 2 > m 1 1 then quatFromMat3Case2 m else quatFromMat3Case1 m)
  else
    (if m 2 2 > m 0 0 then quatFromMat3Case2 m else quatFromMat3Case0 m)

/-- Negation of a 3-vector, used for the `-zAxis` column of the basis. -/
def vec3neg (a : Vec3) : Vec3 := (-a.1, -a.2.1, -a.2.2)

/-- Translated from `src/unnamed/part_000` (`ArcballCamera` constructor):
derives the orthonormal basis from eye, center and up, initializes
`translation`, `centerTranslation` and `rotation`, and ends by calling
`updateCameraMatrix`. The source recomputes `yAxis` as the unnormalized
`xAxis × zAxis` on line 29, overwriting the normalized value; the model
mirrors that. -/
def ArcballCamera.new (eye center up : Vec3) (zoomSpeed : ℝ)
    (screenDims : Vec2) : ArcballState :=
  let vup := vec3normalize up
  let zAxis0 := vec3sub center eye
  let viewDist := vec3len zAxis0
  let zAxis := vec3normalize zAxis0
  let xAxis0 := vec3normalize (vec3cross zAxis vup)
  let yAxis := vec3cross xAxis0 zAxis
  let xAxis := vec3normalize xAxis0
  let invScreen : Vec2 := (1 / screenDims.1, 1 / screenDims.2)
  let centerTranslation := (translationM center)⁻¹
  let translation := translationM (0, 0, -1 * viewDist)
  let rotMat := (mat3FromCols xAxis yAxis (vec3neg zAxis)).transpose
  let rotation := quatNormalize (quatFromMat3 rotMat)
  updateCameraMatrix
    { rotation := rotation
      translation := translation
      centerTranslation := centerTranslation
      camera := 1
      invCamera := 1
      zoomSpeed := zoomSpeed
      invScreen := invScreen }

/-- Result of processing a two-touch move event: which gesture callback is
invoked, if any, and with what argument (`src/controller.js`,
`Controller.onTouchMove`). -/
inductive Gesture where
  | pinch (amount : ℝ)
  | drag (v : Vec2)
  | noGesture

/-- Modelled from the spec: `Math.sign` (1, -1 or 0). -/
def jsSign (a : ℝ) : ℝ := if 0 < a then 1 else if a < 0 then -1 else 0

/-- Translated from `src/controller.js` (`Controller.pointDist`):
`sqrt((b.x - a.x)^2 + (b.y - a.y)^2)`. -/
def pointDist (a b : Vec2) : ℝ :=
  Real.sqrt ((b.1 - a.1) ^ 2 + (b.2 - a.2) ^ 2)

/-- The two pinch alignments of `Controller.onTouchMove`: dot products of
the normalized old-position axis with each normalized motion direction. -/
def pinchAlign (old0 old1 new0 new1 : Vec2) : ℝ × ℝ :=
  let pinchAxis := vec2normalize (old1.1 - old0.1, old1.2 - old0.2)
  (vec2dot pinchAxis (vec2normalize (new0.1 - old0.1, new0.2 - old0.2)),
   vec2dot pinchAxis (vec2normalize (new1.1 - old1.1, new1.2 - old1.2)))

/-- The two pan alignments of `Controller.onTouchMove`: dot products of the
normalized averaged motion vector with each normalized motion direction. -/
def panAlign (old0 old1 new0 new1 : Vec2) : ℝ × ℝ :=
  let m0 : Vec2 := (new0.1 - old0.1, new0.2 - old0.2)
  let m1 : Vec2 := (new1.1 - old1.1, new1.2 - old1.2)
  let panAxis := vec2normalize (vec2lerp m0 m1 0.5)
  (vec2dot panAxis (vec2normalize m0), vec2dot panAxis (vec2normalize m1))

/-- The pinch branch condition of `Controller.onTouchMove` (lines 184-185):
both pinch alignments exceed 0.5 in magnitude and their `Math.sign`s differ. -/
def pinchCond (old0 old1 new0 new1 : Vec2) : Prop :=
  let pm := pinchAlign old0 old1 new0 new1
  |pm.1| > 0.5 ∧ |pm.2| > 0.5 ∧ jsSign pm.1 ≠ jsSign pm.2

/-- The pan branch condition of `Controller.onTouchMove` (lines 192-193):
both pan alignments exceed 0.5 in magnitude and their `Math.sign`s agree. -/
def panCond (old0 old1 new0 new1 : Vec2) : Prop :=
  let pm := panAlign old0 old1 new0 new1
  |pm.1| > 0.5 ∧ |pm.2| > 0.5 ∧ jsSign pm.1 = jsSign pm.2

open Classical in
/-- Translated from `src/controller.js` (`Controller.onTouchMove`,
lines 154-199): the two-touch classification given the first two tracked
touches' old and new positions and which callbacks are registered. -/
def classifyTouchMove (hasPinch hasDrag : Bool) (old0 old1 new0 new1 : Vec2) :
    Gesture :=
  if hasPinch ∧ pinchCond old0 old1 new0 new1 then
    Gesture.pinch (pointDist new0 new1 - pointDist old0 old1)
  else if hasDrag ∧ panCond old0 old1 new0 new1 then
    let m0 : Vec2 := (new0.1 - old0.1, new0.2 - old0.2)
    let m1 : Vec2 := (new1.1 - old1.1, new1.2 - old1.2)
    let panAmount := vec2lerp m0 m1 0.5
    Gesture.drag (panAmount.1, -panAmount.2)
  else
    Gesture.noGesture

/-- The `touches` object of `Controller`, modelled as an association list of
touch identifier and last known position, kept in ascending identifier order
(integer-keyed JavaScript objects iterate in ascending key order). -/
abbrev Touches := List (ℕ × Vec2)

/-- Write `touches[id] = p`: replace the entry when the identifier is
present, otherwise insert it in ascending key order. -/
def insertTouch (ts : Touches) (id : ℕ) (p : Vec2) : Touches :=
  match ts with
  | [] => [(id, p)]
  | (i, q) :: rest =>
    if id < i then (id, p) :: (i, q) :: rest
    else if id = i then (id, p) :: rest
    else (i, q) :: insertTouch rest id p

/-- Apply a list of changed touches to the touch map, in event order. -/
def updateTouches (ts : Touches) (changed : Touches) : Touches :=
  changed.foldl (fun acc c => insertTouch acc c.1 c.2) ts

/-- Translated from `src/controller.js` (`Controller.onTouchMove`, multi-touch
branch, lines 126-207): `curTouches` holds the changed positions plus the
unchanged ones (so, the updated map); `oldTouches` and `newTouches` list the
old and current positions in identifier order; the first two of each feed the
classifier; finally `touches` itself is updated with all changed positions.
Returns the invoked gesture and the updated touch map. -/
def onTouchMoveMulti (hasPinch hasDrag : Bool) (touches changed : Touches) :
    Gesture × Touches :=
  let curTouches := updateTouches touches changed
  let oldTouches := touches.map Prod.snd
  let newTouches := curTouches.map Prod.snd
  let gesture :=
    match oldTouches, newTouches with
    | o0 :: o1 :: _, n0 :: n1 :: _ => classifyTouchMove hasPinch hasDrag o0 o1 n0 n1
    | _, _ => Gesture.noGesture
  (gesture, updateTouches touches changed)

/-- Whether a gesture result is a two-finger-drag callback invocation. -/
def Gesture.isDrag : Gesture → Bool
  | Gesture.drag _ => true
  | _ => false

/-- The camera-matrix consistency property of the spec: `camera` is the
product `translation * rotation * centerTranslation` and, when the camera
matrix is invertible, `camera * invCamera` is the identity. -/
def CamP (s : ArcballState) : Prop :=
  s.camera = s.translation * (mat4FromQuat s.rotation * s.centerTranslation) ∧
  (s.camera.det ≠ 0 → s.camera * s.invCamera = 1)

/-- A concrete, fully consistent camera state (identity orientation, pivot at
the origin, eye one unit away, a 200x200 pixel surface), used to instantiate
hypotheses at concrete inputs. -/
def idState : ArcballState :=
  { rotation := ⟨0, 0, 0, 1⟩
    translation := translationM (0, 0, -1)
    centerTranslation := 1
    camera := translationM (0, 0, -1) * (mat4FromQuat ⟨0, 0, 0, 1⟩ * 1)
    invCamera := (translationM (0, 0, -1) * (mat4FromQuat ⟨0, 0, 0, 1⟩ * 1))⁻¹
    zoomSpeed := 1
    invScreen := (1 / 200, 1 / 200) }

/-- C10: `zoom` modifies only the translation matrix and the derived
`camera`/`invCamera`, leaving `rotation`, `centerTranslation`, `zoomSpeed`
and `invScreen` unchanged; `pan` modifies only `centerTranslation` and the
derived matrices, leaving `rotation`, `translation`, `zoomSpeed` and
`invScreen` unchanged. -/
theorem zoom_pan_frame_conditions :
    (∀ (s : ArcballState) (a : ℝ),
      (zoom s a).rotation = s.rotation ∧
      (zoom s a).centerTranslation = s.centerTranslation ∧
      (zoom s a).zoomSpeed = s.zoomSpeed ∧
      (zoom s a).invScreen = s.invScreen) ∧
    (∀ (s : ArcballState) (d : Vec2),
      (pan s d).rotation = s.rotation ∧
      (pan s d).translation = s.translation ∧
      (pan s d).zoomSpeed = s.zoomSpeed ∧
      (pan s d).invScreen = s.invScreen) :=
  ⟨fun _ _ => ⟨rfl, rfl, rfl, rfl⟩, fun _ _ => ⟨rfl, rfl, rfl, rfl⟩⟩

/-- C3: for any sequence of `zoom` calls with arbitrary signed amounts,
after each call the depth component `translation[14]` is at most `-0.2`;
the clamp is re-established by every call. -/
theorem zoom_translation_depth_clamped (s : ArcballState) (a : ℝ)
    (rest : List ℝ) :
    e14 ((List.foldl zoom s (a :: rest)).translation) ≤ -0.2 := by
  induction rest generalizing s a with
  | nil =>
    show e14 (zoom s a).translation ≤ -0.2
    unfold zoom updateCameraMatrix
    dsimp only
    split
    · simp [e14, setE14]
    · next h => exact le_of_lt (lt_of_not_ge h)
  | cons b rs ih => exact ih (zoom s a) b

/-- C6: `screenToArcball` maps a point with squared length at most 1 to the
quaternion `(p.x, p.y, sqrt (1 - |p|^2), 0)`, a point with length greater
than 1 to `(u.x, u.y, 0, 0)` where `u = p / |p|`, and the origin to
`(0, 0, 1, 0)`. -/
theorem screenToArcball_spec :
    (∀ p : Vec2, p.1 * p.1 + p.2 * p.2 ≤ 1 →
      screenToArcball p = ⟨p.1, p.2, Real.sqrt (1 - (p.1 * p.1 + p.2 * p.2)), 0⟩) ∧
    (∀ p : Vec2, 1 < vec2len p →
      screenToArcball p = ⟨p.1 / vec2len p, p.2 / vec2len p, 0, 0⟩) ∧
    screenToArcball (0, 0) = ⟨0, 0, 1, 0⟩ := by
  refine ⟨fun p h => ?_, fun p h => ?_, ?_⟩
  · unfold screenToArcball
    rw [if_pos (by simpa [vec2dot] using h)]
    simp [vec2dot]
  · have h' : ¬ vec2dot p p ≤ 1 := by
      rw [not_le]
      have := (Real.lt_sqrt (by positivity)).mp h
      simpa [vec2dot, vec2len, sq] using this
    unfold screenToArcball
    rw [if_neg h']
    rfl
  · unfold screenToArcball
    rw [if_pos (by norm_num [vec2dot])]
    norm_num [vec2dot, Real.sqrt_one]

/-- C6 witness: the hemisphere branch at the origin, the equator branch at
`(2, 0)`, and the origin value, concretely. -/
theorem screenToArcball_spec_witness :
    screenToArcball ((0 : ℝ), (0 : ℝ)) =
      ⟨0, 0, Real.sqrt (1 - ((0 : ℝ) * 0 + 0 * 0)), 0⟩ ∧
    screenToArcball ((2 : ℝ), (0 : ℝ)) =
      ⟨2 / vec2len (2, 0), 0 / vec2len (2, 0), 0, 0⟩ ∧
    screenToArcball (0, 0) = ⟨0, 0, 1, 0⟩ := by
  refine ⟨screenToArcball_spec.1 (0, 0) (by norm_num),
          screenToArcball_spec.2.1 (2, 0) ?_, screenToArcball_spec.2.2⟩
  have : vec2len ((2 : ℝ), (0 : ℝ)) = 2 := by
    rw [vec2len]
    norm_num
    rw [show (4 : ℝ) = 2 ^ 2 by norm_num, Real.sqrt_sq (by norm_num : (0:ℝ) ≤ 2)]
  rw [this]
  norm_num

/-- C1: at the concrete input `prevMouse = (0,0)`, `curMouse = (200,200)` on
a 200x200 surface, the NDC point `rotate` computes for `prevMouse` has
x-coordinate 1, derived from `curMouse.x`, whereas the point prescribed by
the claim (x from `prevMouse.x`) is `-1`: the source reads `curMouse[0]`
where the intent is `prevMouse[0]`. -/
theorem rotate_mPrev_reads_curMouse_x :
    rotateMPrev idState (0, 0) (200, 200) = (1, 1) ∧
    rotateMPrevSpec idState (0, 0) = (-1, 1) := by
  constructor
  · unfold rotateMPrev idState clamp
    norm_num
  · unfold rotateMPrevSpec idState clamp
    norm_num

/-- The squared quaternion norm is multiplicative for the Hamilton product
(Euler's four-square identity). -/
theorem quatNormSq_quatMul (a b : Quat) :
    quatNormSq (quatMul a b) = quatNormSq a * quatNormSq b := by
  unfold quatMul quatNormSq
  dsimp only
  ring

/-- Both branches of `screenToArcball` produce a quaternion of squared
norm 1. -/
theorem quatNormSq_screenToArcball (p : Vec2) :
    quatNormSq (screenToArcball p) = 1 := by
  unfold screenToArcball
  dsimp only
  split
  · next h =>
    unfold quatNormSq
    dsimp only
    rw [Real.mul_self_sqrt (by linarith)]
    unfold vec2dot
    ring
  · next h =>
    have hd : 1 < vec2dot p p := not_le.mp h
    have hlen : vec2len p ≠ 0 := by
      unfold vec2len
      unfold vec2dot at hd
      positivity
    have hsq : vec2len p * vec2len p = p.1 * p.1 + p.2 * p.2 := by
      unfold vec2len
      rw [Real.mul_self_sqrt (by positivity)]
    unfold quatNormSq vec2normalize
    dsimp only
    field_simp
    linarith [hsq]

/-- C5: for any sequence of `rotate` calls starting from a state whose
rotation quaternion is unit length, the rotation stays unit length after
every call, with no explicit renormalization in `rotate`. -/
theorem rotate_preserves_unit_rotation (s : ArcballState)
    (calls : List (Vec2 × Vec2)) (h : quatNorm s.rotation = 1) :
    quatNorm
      ((calls.foldl (fun st pc => rotate st pc.1 pc.2) s).rotation) = 1 := by
  induction calls generalizing s with
  | nil => exact h
  | cons pc rest ih =>
    apply ih
    have hsq : quatNormSq s.rotation = 1 := by
      have hnn : 0 ≤ quatNormSq s.rotation := by
        unfold quatNormSq
        nlinarith [mul_self_nonneg s.rotation.x, mul_self_nonneg s.rotation.y,
          mul_self_nonneg s.rotation.z, mul_self_nonneg s.rotation.w]
      have h2 := congrArg (fun t => t * t) h
      dsimp only at h2
      rw [quatNorm, Real.mul_self_sqrt hnn] at h2
      simpa using h2
    show quatNorm (quatMul _ (quatMul _ s.rotation)) = 1
    unfold quatNorm
    rw [quatNormSq_quatMul, quatNormSq_quatMul, quatNormSq_screenToArcball,
      quatNormSq_screenToArcball, hsq]
    norm_num

/-- C5 witness: the identity start state has a unit rotation and keeps one
after a concrete `rotate` call. -/
theorem rotate_preserves_unit_rotation_witness :
    quatNorm idState.rotation = 1 ∧
    quatNorm
      ((([(((0 : ℝ), (0 : ℝ)), ((50 : ℝ), (50 : ℝ)))]).foldl
        (fun st pc => rotate st pc.1 pc.2) idState).rotation) = 1 := by
  have h0 : quatNorm idState.rotation = 1 := by
    unfold idState quatNorm quatNormSq
    norm_num
  exact ⟨h0, rotate_preserves_unit_rotation idState _ h0⟩

/-- Square-root evaluation helper. -/
theorem sqrt_of_sq {a b : ℝ} (hb : 0 ≤ b) (h : a = b ^ 2) : Real.sqrt a = b := by
  rw [h, Real.sqrt_sq hb]

/-- An alignment whose magnitude exceeds the threshold is nonzero. -/
theorem ne_zero_of_abs_gt {a : ℝ} (h : |a| > 0.5) : a ≠ 0 := by
  intro h0
  rw [h0] at h
  norm_num at h

/-- Value of `Math.sign` on a positive number. -/
theorem jsSign_of_pos {a : ℝ} (h : 0 < a) : jsSign a = 1 := by
  simp [jsSign, h]

/-- Value of `Math.sign` on a negative number. -/
theorem jsSign_of_neg {a : ℝ} (h : a < 0) : jsSign a = -1 := by
  simp [jsSign, h, asymm h]

/-- For nonzero reals, differing `Math.sign`s mean strictly opposite signs. -/
theorem jsSign_ne_iff {a b : ℝ} (ha : a ≠ 0) (hb : b ≠ 0) :
    jsSign a ≠ jsSign b ↔ (a < 0 ∧ 0 < b) ∨ (0 < a ∧ b < 0) := by
  rcases ha.lt_or_lt with ha' | ha' <;> rcases hb.lt_or_lt with hb' | hb'
  · rw [jsSign_of_neg ha', jsSign_of_neg hb']
    simp [asymm ha', asymm hb']
  · rw [jsSign_of_neg ha', jsSign_of_pos hb']
    norm_num [ha', hb']
  · rw [jsSign_of_pos ha', jsSign_of_neg hb']
    norm_num [ha', hb']
  · rw [jsSign_of_pos ha', jsSign_of_pos hb']
    simp [asymm ha', asymm hb']

/-- For nonzero reals, equal `Math.sign`s mean strictly equal signs. -/
theorem jsSign_eq_iff {a b : ℝ} (ha : a ≠ 0) (hb : b ≠ 0) :
    jsSign a = jsSign b ↔ (0 < a ∧ 0 < b) ∨ (a < 0 ∧ b < 0) := by
  rcases ha.lt_or_lt with ha' | ha' <;> rcases hb.lt_or_lt with hb' | hb'
  · rw [jsSign_of_neg ha', jsSign_of_neg hb']
    simp [ha', hb', asymm ha']
  · rw [jsSign_of_neg ha', jsSign_of_pos hb']
    norm_num [asymm ha', asymm hb']
  · rw [jsSign_of_pos ha', jsSign_of_neg hb']
    norm_num [asymm ha', asymm hb']
  · rw [jsSign_of_pos ha', jsSign_of_pos hb']
    simp [ha', hb', asymm ha']

/-- The pinch branch condition, restated with explicit opposite signs. -/
theorem pinchCond_iff (o0 o1 n0 n1 : Vec2) :
    pinchCond o0 o1 n0 n1 ↔
      |(pinchAlign o0 o1 n0 n1).1| > 0.5 ∧ |(pinchAlign o0 o1 n0 n1).2| > 0.5 ∧
      (((pinchAlign o0 o1 n0 n1).1 < 0 ∧ 0 < (pinchAlign o0 o1 n0 n1).2) ∨
       (0 < (pinchAlign o0 o1 n0 n1).1 ∧ (pinchAlign o0 o1 n0 n1).2 < 0)) := by
  unfold pinchCond
  dsimp only
  constructor
  · rintro ⟨h1, h2, h3⟩
    exact ⟨h1, h2,
      (jsSign_ne_iff (ne_zero_of_abs_gt h1) (ne_zero_of_abs_gt h2)).mp h3⟩
  · rintro ⟨h1, h2, h3⟩
    exact ⟨h1, h2,
      (jsSign_ne_iff (ne_zero_of_abs_gt h1) (ne_zero_of_abs_gt h2)).mpr h3⟩

/-- The pan branch condition, restated with explicit shared signs. -/
theorem panCond_iff (o0 o1 n0 n1 : Vec2) :
    panCond o0 o1 n0 n1 ↔
      |(panAlign o0 o1 n0 n1).1| > 0.5 ∧ |(panAlign o0 o1 n0 n1).2| > 0.5 ∧
      ((0 < (panAlign o0 o1 n0 n1).1 ∧ 0 < (panAlign o0 o1 n0 n1).2) ∨
       ((panAlign o0 o1 n0 n1).1 < 0 ∧ (panAlign o0 o1 n0 n1).2 < 0)) := by
  unfold panCond
  dsimp only
  constructor
  · rintro ⟨h1, h2, h3⟩
    exact ⟨h1, h2,
      (jsSign_eq_iff (ne_zero_of_abs_gt h1) (ne_zero_of_abs_gt h2)).mp h3⟩
  · rintro ⟨h1, h2, h3⟩
    exact ⟨h1, h2,
      (jsSign_eq_iff (ne_zero_of_abs_gt h1) (ne_zero_of_abs_gt h2)).mpr h3⟩

/-- C2: the touches starting at `(0,100)` and `(100,100)` and moving to
`(10,100)` and `(90,100)` classify as a pinch with distance delta `-20`
(so the two-finger-drag callback is not invoked), and in general the pinch
callback fires exactly when both pinch alignments exceed 0.5 in magnitude
with opposite signs. -/
theorem touch_pinch_classification :
    classifyTouchMove true true (0, 100) (100, 100) (10, 100) (90, 100) =
      Gesture.pinch (-20) ∧
    (∀ o0 o1 n0 n1 : Vec2,
      (∃ δ, classifyTouchMove true true o0 o1 n0 n1 = Gesture.pinch δ) ↔
        (|(pinchAlign o0 o1 n0 n1).1| > 0.5 ∧ |(pinchAlign o0 o1 n0 n1).2| > 0.5 ∧
         (((pinchAlign o0 o1 n0 n1).1 < 0 ∧ 0 < (pinchAlign o0 o1 n0 n1).2) ∨
          (0 < (pinchAlign o0 o1 n0 n1).1 ∧ (pinchAlign o0 o1 n0 n1).2 < 0)))) := by
  have s1 : Real.sqrt 10000 = 100 := sqrt_of_sq (by norm_num) (by norm_num)
  have s2 : Real.sqrt 100 = 10 := sqrt_of_sq (by norm_num) (by norm_num)
  have s3 : Real.sqrt 6400 = 80 := sqrt_of_sq (by norm_num) (by norm_num)
  constructor
  · have hpa : pinchAlign (0, 100) (100, 100) (10, 100) (90, 100) =
        ((1 : ℝ), (-1 : ℝ)) := by
      unfold pinchAlign vec2normalize vec2len vec2dot
      norm_num [s1, s2]
    have hcond : pinchCond (0, 100) (100, 100) (10, 100) (90, 100) := by
      unfold pinchCond
      dsimp only
      rw [hpa]
      norm_num [jsSign]
    unfold classifyTouchMove
    rw [if_pos ⟨rfl, hcond⟩]
    unfold pointDist
    norm_num [s1, s3]
  · intro o0 o1 n0 n1
    constructor
    · rintro ⟨δ, hδ⟩
      by_cases hc : pinchCond o0 o1 n0 n1
      · exact (pinchCond_iff o0 o1 n0 n1).mp hc
      · exfalso
        unfold classifyTouchMove at hδ
        rw [if_neg (fun hh => hc hh.2)] at hδ
        split at hδ
        · exact Gesture.noConfusion hδ
        · exact Gesture.noConfusion hδ
    · intro hrhs
      have hc : pinchCond o0 o1 n0 n1 := (pinchCond_iff o0 o1 n0 n1).mpr hrhs
      refine ⟨pointDist n0 n1 - pointDist o0 o1, ?_⟩
      unfold classifyTouchMove
      rw [if_pos ⟨rfl, hc⟩]

/-- C8 counterexample: with touches at `(0,0)` and `(1,-1)` moving to
`(2,0)` and `(1,1)`, both pan alignments exceed 0.5 with the same sign, yet
the two-finger-drag callback is not invoked: the pinch condition also holds
and the pinch branch has priority, so "pan fires iff the pan threshold
condition holds" is false. -/
theorem pan_condition_without_drag :
    panCond (0, 0) (1, -1) (2, 0) (1, 1) ∧
    (classifyTouchMove true true (0, 0) (1, -1) (2, 0) (1, 1)).isDrag = false := by
  have s4 : Real.sqrt 4 = 2 := sqrt_of_sq (by norm_num) (by norm_num)
  have hs : Real.sqrt 2 * Real.sqrt 2 = 2 := Real.mul_self_sqrt (by norm_num)
  have hpos : 0 < Real.sqrt 2 := Real.sqrt_pos.mpr (by norm_num)
  have hlt : Real.sqrt 2 < 2 := by nlinarith [Real.sqrt_nonneg 2]
  have hgt : (0.5 : ℝ) < 1 / Real.sqrt 2 := by
    rw [lt_div_iff₀ hpos]
    nlinarith
  have hpin : pinchAlign (0, 0) (1, -1) (2, 0) (1, 1) =
      (1 / Real.sqrt 2, -(1 / Real.sqrt 2)) := by
    unfold pinchAlign vec2normalize vec2len vec2dot
    norm_num [s4]
    ring_nf
  have hpan : panAlign (0, 0) (1, -1) (2, 0) (1, 1) =
      (1 / Real.sqrt 2, 1 / Real.sqrt 2) := by
    unfold panAlign vec2lerp vec2normalize vec2len vec2dot
    norm_num [s4]
  have hpinch : pinchCond (0, 0) (1, -1) (2, 0) (1, 1) := by
    unfold pinchCond
    dsimp only
    rw [hpin]
    refine ⟨by rw [abs_of_pos (by positivity)]; exact hgt,
      by rw [abs_neg, abs_of_pos (by positivity)]; exact hgt, ?_⟩
    rw [jsSign_of_pos (by positivity), jsSign_of_neg (neg_lt_zero.mpr (by positivity))]
    norm_num
  refine ⟨?_, ?_⟩
  · unfold panCond
    dsimp only
    rw [hpan]
    exact ⟨by rw [abs_of_pos (by positivity)]; exact hgt,
      by rw [abs_of_pos (by positivity)]; exact hgt, rfl⟩
  · unfold classifyTouchMove
    rw [if_pos ⟨rfl, hpinch⟩]
    rfl

/-- C8 amended: touches both moving by `(+5,+5)` classify as a two-finger
drag with emitted vector `(5,-5)`; in general the drag callback fires
exactly when the pinch branch condition fails and both pan alignments
exceed 0.5 in magnitude with the same sign. -/
theorem touch_pan_classification :
    (∀ o0 o1 : Vec2,
      classifyTouchMove true true o0 o1 (o0.1 + 5, o0.2 + 5) (o1.1 + 5, o1.2 + 5) =
        Gesture.drag (5, -5)) ∧
    (∀ o0 o1 n0 n1 : Vec2,
      (∃ v, classifyTouchMove true true o0 o1 n0 n1 = Gesture.drag v) ↔
        (¬ pinchCond o0 o1 n0 n1 ∧
         |(panAlign o0 o1 n0 n1).1| > 0.5 ∧ |(panAlign o0 o1 n0 n1).2| > 0.5 ∧
         ((0 < (panAlign o0 o1 n0 n1).1 ∧ 0 < (panAlign o0 o1 n0 n1).2) ∨
          ((panAlign o0 o1 n0 n1).1 < 0 ∧ (panAlign o0 o1 n0 n1).2 < 0)))) := by
  constructor
  · intro o0 o1
    have h50 : Real.sqrt 50 * Real.sqrt 50 = 50 := Real.mul_self_sqrt (by norm_num)
    have hp50 : 0 < Real.sqrt 50 := Real.sqrt_pos.mpr (by norm_num)
    have hval : (5 / Real.sqrt 50) * (5 / Real.sqrt 50) +
        (5 / Real.sqrt 50) * (5 / Real.sqrt 50) = 1 := by
      field_simp
      nlinarith
    have hpinfail : ¬ pinchCond o0 o1 (o0.1 + 5, o0.2 + 5) (o1.1 + 5, o1.2 + 5) := by
      unfold pinchCond pinchAlign
      dsimp only
      rintro ⟨-, -, hne⟩
      apply hne
      simp only [add_sub_cancel_left]
    have hq : panCond o0 o1 (o0.1 + 5, o0.2 + 5) (o1.1 + 5, o1.2 + 5) := by
      unfold panCond panAlign vec2lerp vec2normalize vec2len vec2dot
      dsimp only
      simp only [add_sub_cancel_left]
      norm_num [hval]
    unfold classifyTouchMove
    rw [if_neg (fun hh => hpinfail hh.2), if_pos ⟨rfl, hq⟩]
    unfold vec2lerp
    simp only [add_sub_cancel_left]
    norm_num
  · intro o0 o1 n0 n1
    constructor
    · rintro ⟨v, hv⟩
      unfold classifyTouchMove at hv
      by_cases hp : pinchCond o0 o1 n0 n1
      · rw [if_pos ⟨rfl, hp⟩] at hv
        exact Gesture.noConfusion hv
      · rw [if_neg (fun hh => hp hh.2)] at hv
        by_cases hq : panCond o0 o1 n0 n1
        · obtain ⟨h1, h2, h3⟩ := (panCond_iff o0 o1 n0 n1).mp hq
          exact ⟨hp, h1, h2, h3⟩
        · rw [if_neg (fun hh => hq hh.2)] at hv
          exact Gesture.noConfusion hv
    · rintro ⟨hp, h1, h2, h3⟩
      have hq : panCond o0 o1 n0 n1 := (panCond_iff o0 o1 n0 n1).mpr ⟨h1, h2, h3⟩
      refine ⟨((vec2lerp (n0.1 - o0.1, n0.2 - o0.2) (n1.1 - o1.1, n1.2 - o1.2) 0.5).1,
        -(vec2lerp (n0.1 - o0.1, n0.2 - o0.2) (n1.1 - o1.1, n1.2 - o1.2) 0.5).2), ?_⟩
      unfold classifyTouchMove
      rw [if_neg (fun hh => hp hh.2), if_pos ⟨rfl, hq⟩]

/-- C9: on a two-touch move event where neither the pinch nor the pan
threshold condition holds, no gesture callback is invoked, and the touch
map is still updated with all changed positions. -/
theorem onTouchMove_ambiguous_no_gesture (bp bd : Bool) (i0 i1 : ℕ)
    (o0 o1 : Vec2) (rest changed : Touches) (n0 n1 : Vec2) (nrest : List Vec2)
    (hnew : (updateTouches ((i0, o0) :: (i1, o1) :: rest) changed).map Prod.snd =
      n0 :: n1 :: nrest)
    (hpin : ¬ pinchCond o0 o1 n0 n1) (hpan : ¬ panCond o0 o1 n0 n1) :
    onTouchMoveMulti bp bd ((i0, o0) :: (i1, o1) :: rest) changed =
      (Gesture.noGesture, updateTouches ((i0, o0) :: (i1, o1) :: rest) changed) := by
  unfold onTouchMoveMulti
  dsimp only
  rw [hnew]
  simp only [List.map_cons]
  unfold classifyTouchMove
  rw [if_neg (fun hh => hpin hh.2), if_neg (fun hh => hpan hh.2)]

/-- Composing two translation matrices adds their offsets. -/
theorem mul_translationM (a b : Vec3) :
    translationM a * translationM b =
      translationM (a.1 + b.1, a.2.1 + b.2.1, a.2.2 + b.2.2) := by
  ext i j
  fin_cases i <;> fin_cases j <;>
    simp [translationM, Matrix.mul_apply, Fin.sum_univ_four] <;> ring

/-- The zero translation is the identity matrix. -/
theorem translationM_zero : translationM (0, 0, 0) = 1 := by
  ext i j
  fin_cases i <;> fin_cases j <;>
    simp [translationM, Matrix.one_apply]

/-- A translation matrix has determinant 1. -/
theorem det_translationM (v : Vec3) : (translationM v).det = 1 := by
  rw [Matrix.det_of_upperTriangular]
  · simp [Fin.prod_univ_four, translationM]
  · intro i j hji
    have hj : j.val < i.val := hji
    have h3 : ¬ (j = 3) := by
      intro h
      rw [h] at hj
      omega
    have hij : ¬ (i = j) := by
      intro h
      rw [h] at hj
      omega
    simp [translationM, h3, hij]

/-- Action of a translation matrix on a homogeneous 4-vector. -/
theorem mulVec_translationM (v : Vec3) (x : Vec4) :
    (translationM v).mulVec x =
      ![x 0 + v.1 * x 3, x 1 + v.2.1 * x 3, x 2 + v.2.2 * x 3, x 3] := by
  funext i
  fin_cases i <;>
    simp [translationM, Matrix.mulVec, Matrix.dotProduct, Fin.sum_univ_four]

/-- The rotation matrix of a quaternion fixes the homogeneous coordinate. -/
theorem mulVec_fromQuat_apply3 (q : Quat) (x : Vec4) :
    (mat4FromQuat q).mulVec x 3 = x 3 := by
  simp [mat4FromQuat, Matrix.mulVec, Matrix.dotProduct, Fin.sum_univ_four]

/-- The identity quaternion yields the identity rotation matrix. -/
theorem fromQuat_id : mat4FromQuat ⟨0, 0, 0, 1⟩ = 1 := by
  ext i j
  fin_cases i <;> fin_cases j <;>
    simp [mat4FromQuat, Matrix.one_apply]

/-- Every state produced by `updateCameraMatrix` satisfies the camera-matrix
consistency property. -/
theorem camP_update (t : ArcballState) : CamP (updateCameraMatrix t) :=
  ⟨rfl, fun h => Matrix.mul_nonsing_inv _ (isUnit_iff_ne_zero.mpr h)⟩

/-- C4: after construction and after every `rotate`, `zoom` or `pan` call,
`camera` is the product `translation * rotation * centerTranslation` and,
whenever the camera matrix is invertible, `camera * invCamera` is exactly
the identity. -/
theorem camera_inverse_consistency :
    (∀ (eye center up : Vec3) (zs : ℝ) (dims : Vec2),
      CamP (ArcballCamera.new eye center up zs dims)) ∧
    (∀ (s : ArcballState) (p c : Vec2), CamP (rotate s p c)) ∧
    (∀ (s : ArcballState) (a : ℝ), CamP (zoom s a)) ∧
    (∀ (s : ArcballState) (d : Vec2), CamP (pan s d)) :=
  ⟨fun _ _ _ _ _ => camP_update _, fun _ _ _ => camP_update _,
   fun _ _ => camP_update _, fun _ _ => camP_update _⟩

/-- The camera matrix of a zero-amount `zoom` from the concrete identity
state, computed in closed form. -/
theorem zoom_idState_camera :
    (zoom idState 0).camera = translationM (0, 0, -1) := by
  have htr : translationM ((0:ℝ), (0:ℝ), (0:ℝ) * idState.invScreen.2 * idState.zoomSpeed) *
      idState.translation = translationM (0, 0, -1) := by
    rw [show idState.translation = translationM (0, 0, -1) from rfl, mul_translationM]
    norm_num
  have he : e14 (translationM ((0:ℝ), (0:ℝ), (-1:ℝ))) = -1 := by
    simp [e14, translationM]
  unfold zoom updateCameraMatrix
  dsimp only
  rw [htr, he, if_neg (by norm_num),
    show idState.rotation = (⟨0, 0, 0, 1⟩ : Quat) from rfl, fromQuat_id,
    show idState.centerTranslation = (1 : Mat4) from rfl, Matrix.one_mul,
    Matrix.mul_one]

/-- C4 witness: a concrete `zoom` call on the concrete identity state has an
invertible camera matrix, and there `camera * invCamera = 1`. -/
theorem camera_inverse_consistency_witness :
    (zoom idState 0).camera * (zoom idState 0).invCamera = 1 := by
  apply (camera_inverse_consistency.2.2.1 idState 0).2
  rw [zoom_idState_camera, det_translationM]
  norm_num

/-- C9 witness: touches at `(0,0)` and `(100,0)` moving perpendicular to and
symmetrically about their axis (to `(0,1)` and `(100,-1)`) satisfy neither
threshold condition, so no gesture fires and the map is still updated. -/
theorem onTouchMove_ambiguous_no_gesture_witness :
    onTouchMoveMulti true true
        [(0, ((0:ℝ), (0:ℝ))), (1, ((100:ℝ), (0:ℝ)))]
        [(0, ((0:ℝ), (1:ℝ))), (1, ((100:ℝ), (-1:ℝ)))] =
      (Gesture.noGesture,
        updateTouches [(0, ((0:ℝ), (0:ℝ))), (1, ((100:ℝ), (0:ℝ)))]
          [(0, ((0:ℝ), (1:ℝ))), (1, ((100:ℝ), (-1:ℝ)))]) := by
  have s1 : Real.sqrt 10000 = 100 := sqrt_of_sq (by norm_num) (by norm_num)
  have hpa : pinchAlign ((0:ℝ), (0:ℝ)) (100, 0) (0, 1) (100, -1) =
      ((0:ℝ), (0:ℝ)) := by
    unfold pinchAlign vec2normalize vec2len vec2dot
    norm_num [s1]
  have hqa : panAlign ((0:ℝ), (0:ℝ)) (100, 0) (0, 1) (100, -1) =
      ((0:ℝ), (0:ℝ)) := by
    unfold panAlign vec2lerp vec2normalize vec2len vec2dot
    norm_num
  have hpin : ¬ pinchCond ((0:ℝ), (0:ℝ)) (100, 0) (0, 1) (100, -1) := by
    intro hc
    unfold pinchCond at hc
    dsimp only at hc
    rw [hpa] at hc
    norm_num at hc
  have hpan : ¬ panCond ((0:ℝ), (0:ℝ)) (100, 0) (0, 1) (100, -1) := by
    intro hc
    unfold panCond at hc
    dsimp only at hc
    rw [hqa] at hc
    norm_num at hc
  exact onTouchMove_ambiguous_no_gesture true true 0 1 (0, 0) (100, 0) []
    [(0, ((0:ℝ), (1:ℝ))), (1, ((100:ℝ), (-1:ℝ)))] (0, 1) (100, -1) [] rfl
    hpin hpan

/-- The homogeneous coordinate of a vector is unchanged by a translation
matrix. -/
theorem mulVec_translationM_apply3 (v : Vec3) (x : Vec4) :
    (translationM v).mulVec x 3 = x 3 := by
  rw [mulVec_translationM]
  rfl

/-- Panning leaves the rotation field unchanged. -/
theorem pan_rotation (s : ArcballState) (d : Vec2) :
    (pan s d).rotation = s.rotation := rfl

/-- Panning leaves the translation field unchanged. -/
theorem pan_translation (s : ArcballState) (d : Vec2) :
    (pan s d).translation = s.translation := rfl

/-- Panning leaves the screen-reciprocal field unchanged. -/
theorem pan_invScreen (s : ArcballState) (d : Vec2) :
    (pan s d).invScreen = s.invScreen := rfl

/-- The pivot translation written by `pan`, in closed form. -/
theorem pan_centerTranslation (s : ArcballState) (d : Vec2) :
    (pan s d).centerTranslation =
      translationM (s.invCamera.mulVec (panDelta s d) 0,
        s.invCamera.mulVec (panDelta s d) 1,
        s.invCamera.mulVec (panDelta s d) 2) * s.centerTranslation := rfl

/-- The camera matrix after `pan`, in terms of the updated pivot. -/
theorem pan_camera (s : ArcballState) (d : Vec2) :
    (pan s d).camera =
      s.translation * (mat4FromQuat s.rotation * (pan s d).centerTranslation) := rfl

/-- The inverse camera matrix after `pan` is the inverse of its camera
matrix. -/
theorem pan_invCamera (s : ArcballState) (d : Vec2) :
    (pan s d).invCamera = ((pan s d).camera)⁻¹ := rfl

/-- Negating the pixel delta negates the view-space displacement of the
second `pan` call, since the first call left `translation` and `invScreen`
unchanged. -/
theorem panDelta_pan_neg (s : ArcballState) (d : Vec2) :
    panDelta (pan s d) (-d.1, -d.2) = -(panDelta s d) := by
  funext i
  fin_cases i <;>
    simp [panDelta, pan_translation, pan_invScreen]

set_option maxRecDepth 8000 in
/-- C7: `pan(d)` followed by `pan(-d)` restores the whole camera state, for
every state satisfying the data-model invariants (the translation is a pure
Z offset, `camera = translation * rotation * centerTranslation`,
`invCamera = camera⁻¹`, and the camera matrix is invertible); in particular
`centerTranslation` round-trips, and `translation` and `rotation` are
untouched by `pan`. -/
theorem pan_roundtrip (s : ArcballState) (d : Vec2)
    (hTr : ∃ tz : ℝ, s.translation = translationM (0, 0, tz))
    (hCam : s.camera = s.translation * (mat4FromQuat s.rotation * s.centerTranslation))
    (hInv : s.invCamera = s.camera⁻¹)
    (hDet : s.camera.det ≠ 0) :
    pan (pan s d) (-d.1, -d.2) = s := by
  obtain ⟨tz, htz⟩ := hTr
  set delta : Vec4 := panDelta s d with hdelta
  set u : Vec4 := s.invCamera.mulVec delta with hu
  have hu3 : delta 3 = 0 := rfl
  have hcmu : s.camera.mulVec u = delta := by
    rw [hu, hInv, Matrix.mulVec_mulVec,
      Matrix.mul_nonsing_inv _ (isUnit_iff_ne_zero.mpr hDet), Matrix.one_mulVec]
  have hy3 : s.centerTranslation.mulVec u 3 = 0 := by
    have h1 : s.camera.mulVec u =
        (translationM (0, 0, tz)).mulVec
          ((mat4FromQuat s.rotation).mulVec (s.centerTranslation.mulVec u)) := by
      rw [hCam, htz, ← Matrix.mulVec_mulVec, ← Matrix.mulVec_mulVec]
    have h3 := congrFun h1 3
    rw [hcmu, mulVec_translationM_apply3, mulVec_fromQuat_apply3] at h3
    rw [← h3]
    exact hu3
  have hTwy : (translationM (u 0, u 1, u 2)).mulVec (s.centerTranslation.mulVec u) =
      s.centerTranslation.mulVec u := by
    rw [mulVec_translationM]
    funext i
    fin_cases i <;> simp [hy3]
  set cam1 : Mat4 := s.translation *
    (mat4FromQuat s.rotation * (translationM (u 0, u 1, u 2) * s.centerTranslation))
    with hcam1
  have hcam1u : cam1.mulVec u = delta := by
    rw [hcam1, ← Matrix.mulVec_mulVec, ← Matrix.mulVec_mulVec, ← Matrix.mulVec_mulVec,
      hTwy, Matrix.mulVec_mulVec, Matrix.mulVec_mulVec, Matrix.mul_assoc, ← hCam]
    exact hcmu
  have hdet1 : cam1.det ≠ 0 := by
    have hD : s.translation.det *
        ((mat4FromQuat s.rotation).det * s.centerTranslation.det) ≠ 0 := by
      rw [hCam, Matrix.det_mul, Matrix.det_mul] at hDet
      exact hDet
    rw [hcam1, Matrix.det_mul, Matrix.det_mul, Matrix.det_mul, det_translationM]
    simpa using hD
  have hinv1u : cam1⁻¹.mulVec delta = u := by
    have h := congrArg (fun z => cam1⁻¹.mulVec z) hcam1u
    dsimp only at h
    rw [Matrix.mulVec_mulVec, Matrix.nonsing_inv_mul _ (isUnit_iff_ne_zero.mpr hdet1),
      Matrix.one_mulVec] at h
    exact h.symm
  have hu2 : cam1⁻¹.mulVec (-delta) = -u := by
    rw [Matrix.mulVec_neg, hinv1u]
  have hcenter :
      translationM (cam1⁻¹.mulVec (-delta) 0, cam1⁻¹.mulVec (-delta) 1,
          cam1⁻¹.mulVec (-delta) 2) *
        (translationM (u 0, u 1, u 2) * s.centerTranslation) =
      s.centerTranslation := by
    rw [hu2]
    simp only [Pi.neg_apply]
    rw [← Matrix.mul_assoc, mul_translationM]
    simp only [neg_add_cancel]
    rw [translationM_zero, Matrix.one_mul]
  have hpancam : (pan s d).camera = cam1 := by
    rw [pan_camera, pan_centerTranslation, ← hdelta, ← hu, hcam1]
  have hpaninv : (pan s d).invCamera = cam1⁻¹ := by
    rw [pan_invCamera, hpancam]
  have hpancenter : (pan s d).centerTranslation =
      translationM (u 0, u 1, u 2) * s.centerTranslation := by
    rw [pan_centerTranslation, ← hdelta, ← hu]
  have hfinalcenter : (pan (pan s d) (-d.1, -d.2)).centerTranslation =
      s.centerTranslation := by
    rw [pan_centerTranslation, panDelta_pan_neg, ← hdelta, hpaninv, hpancenter]
    exact hcenter
  have hfinalcam : (pan (pan s d) (-d.1, -d.2)).camera = s.camera := by
    rw [pan_camera, pan_translation, pan_rotation, hfinalcenter]
    exact hCam.symm
  refine ArcballState.ext rfl rfl hfinalcenter hfinalcam ?_ rfl rfl
  rw [pan_invCamera, hfinalcam, hInv]

/-- The camera matrix of the concrete identity state, in closed form. -/
theorem idState_camera : idState.camera = translationM (0, 0, -1) := by
  rw [show idState.camera =
      translationM (0, 0, -1) * (mat4FromQuat ⟨0, 0, 0, 1⟩ * 1) from rfl,
    fromQuat_id, Matrix.one_mul, Matrix.mul_one]

/-- C7 witness: a concrete pan by `(1, 2)` followed by `(-1, -2)` on the
concrete identity state restores it exactly. -/
theorem pan_roundtrip_witness :
    pan (pan idState (1, 2)) (-1, -2) = idState := by
  apply pan_roundtrip idState (1, 2) ⟨-1, rfl⟩ rfl rfl
  rw [idState_camera, det_translationM]
  norm_num

end

end WebgpuUtil
